import Mathlib

/-!
Verification of the weight/bias synchronization contract of the analog
linear layer (aihwkit excerpt): the adapter between a logical weight/bias
view and a physically simulated tile storage, its realistic (noisy)
read/write semantics, weight scaling, shape validation, device migration
and parameter-registration behavior.

Real values are modelled as rationals; noise draws are explicit functions
from index positions to perturbations, a fresh draw per write/read.
-/

/-- Compute backend of a tile: host (AnalogTile) or accelerator
(CudaAnalogTile). -/
inductive Backend where
  | cpu : Backend
  | cuda : Backend
deriving DecidableEq, Repr

/-- Modelled from the spec: TileStorage, the physically simulated storage
owned by the Tile collaborator (its internals are absent from the excerpt):
a backend identity, a weight matrix and a bias row. -/
structure TileState where
  backend : Backend
  weights : List (List ℚ)
  bias : List ℚ
deriving DecidableEq, Repr

/-- Modelled from the spec: one non-deterministic noise draw of the Tile
collaborator, giving a perturbation per weight entry and per bias entry.
Distinct calls receive distinct draws. -/
structure NoiseDraw where
  w : Nat → Nat → ℚ
  b : Nat → ℚ

/-- Zero noise draw (a degenerate noise model). -/
def noNoise : NoiseDraw := ⟨fun _ _ => 0, fun _ => 0⟩

/-- Add per-entry noise to a vector (entry j gets ν j added). -/
def addNoiseV (r : List ℚ) (ν : Nat → ℚ) : List ℚ :=
  List.zipWith (fun a j => a + ν j) r (List.range r.length)

/-- Add per-entry noise to a matrix (entry (i, j) gets ν i j added). -/
def addNoiseM (W : List (List ℚ)) (ν : Nat → Nat → ℚ) : List (List ℚ) :=
  List.zipWith (fun row i => addNoiseV row (ν i)) W (List.range W.length)

/-- Maximum absolute value of the entries of a vector (0 when empty). -/
def maxAbsV (r : List ℚ) : ℚ := r.foldr (fun a m => max |a| m) 0

/-- Maximum absolute value of the entries of a matrix (0 when empty). -/
def maxAbs (W : List (List ℚ)) : ℚ := W.foldr (fun r m => max (maxAbsV r) m) 0

/-- Modelled from the spec: the WeightScalingOmega normalization applied
before committing to TileStorage — if omega is nonzero, scale all weights
(and the bias row committed with them) so the maximum absolute weight maps
to omega; if zero, no weight scaling is performed. -/
def applyScaling (omega : ℚ) (W : List (List ℚ)) (B : List ℚ) :
    List (List ℚ) × List ℚ :=
  if omega = 0 then (W, B)
  else (W.map (List.map (fun a => a * (omega / maxAbs W))),
        B.map (fun a => a * (omega / maxAbs W)))

/-- Shape mismatch failure of the adapter's write path. -/
inductive ShapeError where
  | mk : ShapeError
deriving DecidableEq, Repr

/-- The analog linear layer: layer configuration, the analog tile it owns,
and the logical shadow fields `weight` and `bias` (plain fields, not
framework parameters). Field names follow `AnalogLinear`. -/
structure AnalogLinear where
  in_features : Nat
  out_features : Nat
  hasBias : Bool
  realistic_read_write : Bool
  weight_scaling_omega : ℚ
  training : Bool
  analog_tile : TileState
  weight : List (List ℚ)
  bias : List ℚ
deriving DecidableEq, Repr

/-- Shape validation for the adapter's write path: the weights array must
be out_features × in_features and the bias length must match the layer's
bias configuration. -/
def checkShape (l : AnalogLinear) (W : List (List ℚ)) (B : List ℚ) : Bool :=
  W.length == l.out_features &&
  W.all (fun r => r.length == l.in_features) &&
  B.length == (if l.hasBias then l.out_features else 0)

/-- Modelled from the spec: the values committed to TileStorage by a write —
the scaled input, perturbed by the write-noise draw exactly when
RealisticFlag is true. -/
def committedPair (l : AnalogLinear) (W : List (List ℚ)) (B : List ℚ)
    (ν : NoiseDraw) : List (List ℚ) × List ℚ :=
  let p := applyScaling l.weight_scaling_omega W B
  (if l.realistic_read_write then addNoiseM p.1 ν.w else p.1,
   if l.realistic_read_write then addNoiseV p.2 ν.b else p.2)

/-- Modelled from the spec: `set_weights` (defined in the module base,
absent from the excerpt) — validate shapes (ShapeError on mismatch, no
partial write), apply the omega scaling, commit to TileStorage (noisy
exactly when RealisticFlag is true), then sync the logical shadow fields
to what is read back exactly from TileStorage. -/
def set_weights (l : AnalogLinear) (W : List (List ℚ)) (B : List ℚ)
    (ν : NoiseDraw) : Except ShapeError AnalogLinear :=
  if checkShape l W B then
    let c := committedPair l W B ν
    Except.ok { l with
      analog_tile := { l.analog_tile with weights := c.1, bias := c.2 },
      weight := c.1,
      bias := c.2 }
  else
    Except.error ShapeError.mk

/-- Run `set_weights`, keeping the layer unchanged when the call fails. -/
def trySetWeights (l : AnalogLinear) (W : List (List ℚ)) (B : List ℚ)
    (ν : NoiseDraw) : AnalogLinear :=
  match set_weights l W B ν with
  | Except.ok l2 => l2
  | Except.error _ => l

/-- Modelled from the spec: `get_weights` (defined in the module base,
absent from the excerpt) — a fresh read of TileStorage through the
realistic/non-realistic channel: exact copy when RealisticFlag is false,
perturbed by a fresh read-noise draw when true. -/
def get_weights (l : AnalogLinear) (ν : NoiseDraw) :
    List (List ℚ) × List ℚ :=
  if l.realistic_read_write then
    (addNoiseM l.analog_tile.weights ν.w, addNoiseV l.analog_tile.bias ν.b)
  else
    (l.analog_tile.weights, l.analog_tile.bias)

/-- Dot product of two rational vectors. -/
def dotQ (a b : List ℚ) : ℚ := (List.zipWith (fun x y => x * y) a b).sum

/-- Matrix-vector product, row by row. -/
def matVec (W : List (List ℚ)) (x : List ℚ) : List ℚ :=
  W.map (fun r => dotQ r x)

/-- Modelled from the spec: the differentiable boundary's forward
computation reading current TileStorage state — the analog matrix-vector
product plus the tile's bias row; the inference flag is a performance hint
that does not change the mathematical result. -/
def tile_forward (t : TileState) (x : List ℚ) (_is_inference : Bool) :
    List ℚ :=
  if t.bias.isEmpty then matVec t.weights x
  else List.zipWith (fun a b => a + b) (matVec t.weights x) t.bias

/-- Forward pass of `AnalogLinear.forward`: delegates to the differentiable
boundary on the layer's analog tile, passing the negation of the training
flag as the inference hint. -/
def forward (l : AnalogLinear) (x : List ℚ) : List ℚ :=
  tile_forward l.analog_tile x (!l.training)

/-- Modelled from the spec: initial TileStorage created at layer
construction, zero-seeded before the write-through seeding that
construction performs via `reset_parameters`. -/
def mkTile (bk : Backend) (inF outF : Nat) (hb : Bool) : TileState :=
  { backend := bk,
    weights := List.replicate outF (List.replicate inF 0),
    bias := if hb then List.replicate outF 0 else [] }

/-- Reset of `AnalogLinear.reset_parameters`: the framework initialization
policy regenerates the logical weight and bias (the concrete draws `initW`,
`initB` come from the external collaborator), then `set_weights` is called
with those values, re-seeding TileStorage through the write-through path. -/
def reset_parameters (l : AnalogLinear) (initW : List (List ℚ))
    (initB : List ℚ) (ν : NoiseDraw) : Except ShapeError AnalogLinear :=
  set_weights { l with weight := initW, bias := initB } initW initB ν

/-- Layer as it stands in `AnalogLinear.__init__` right after the tile is
created and before `reset_parameters` seeds it. -/
def blankLayer (bk : Backend) (inF outF : Nat) (hb realistic : Bool)
    (om : ℚ) : AnalogLinear :=
  { in_features := inF, out_features := outF, hasBias := hb,
    realistic_read_write := realistic, weight_scaling_omega := om,
    training := true, analog_tile := mkTile bk inF outF hb,
    weight := [], bias := [] }

/-- Construction of `AnalogLinear.__init__`: create the tile, then run
`reset_parameters` (invoked by the superclass constructor), which seeds
TileStorage through `set_weights`. -/
def mkAnalogLinear (bk : Backend) (inF outF : Nat) (hb realistic : Bool)
    (om : ℚ) (initW : List (List ℚ)) (initB : List ℚ) (ν : NoiseDraw) :
    Except ShapeError AnalogLinear :=
  reset_parameters (blankLayer bk inF outF hb realistic om) initW initB ν

/-- Modelled from the spec: device migration rebinds TileStorage to the
target backend (the tile contents are copied across; only the backend
identity changes). -/
def migrateTile (t : TileState) (bk : Backend) : TileState :=
  { t with backend := bk }

/-- Migrate a layer's tile to a target backend (the hook invoked by the
container's device-migration mechanism). -/
def migrate (l : AnalogLinear) (bk : Backend) : AnalogLinear :=
  { l with analog_tile := migrateTile l.analog_tile bk }

/-- Ready state of the layer lifecycle: forward is callable, i.e. the tile
weight matrix has the layer's declared shape. -/
def Ready (l : AnalogLinear) : Prop :=
  l.analog_tile.weights.length = l.out_features ∧
  ∀ r ∈ l.analog_tile.weights, r.length = l.in_features

/-- Framework bookkeeping of a module: the registered parameter names and
the registered analog tiles. -/
structure ModuleRegistry where
  params : List String
  tiles : List TileState

/-- Unregister a parameter: `Module.unregister_parameter`. -/
def unregister_parameter (r : ModuleRegistry) (n : String) : ModuleRegistry :=
  { r with params := r.params.filter (fun p => p != n) }

/-- Register an analog tile as a managed resource:
`AnalogModuleBase.register_analog_tile`. -/
def register_analog_tile (r : ModuleRegistry) (t : TileState) :
    ModuleRegistry :=
  { r with tiles := r.tiles ++ [t] }

/-- Registry produced by the superclass `Linear.__init__`: `weight` and,
when bias is enabled, `bias` are registered parameters; no tile yet. -/
def linearInitRegistry (hb : Bool) : ModuleRegistry :=
  { params := "weight" :: (if hb then ["bias"] else []), tiles := [] }

/-- Registry bookkeeping of `AnalogLinear.__init__`: after the superclass
registers `weight`/`bias`, unregister `weight`, unregister `bias` when bias
is enabled, then register the analog tile. -/
def constructRegistry (hb : Bool) (t : TileState) : ModuleRegistry :=
  let r0 := linearInitRegistry hb
  let r1 := unregister_parameter r0 "weight"
  let r2 := if hb then unregister_parameter r1 "bias" else r1
  register_analog_tile r2 t

/-!
Helper lemmas about the embedding.
-/

lemma length_addNoiseV (r : List ℚ) (ν : Nat → ℚ) :
    (addNoiseV r ν).length = r.length := by
  simp [addNoiseV, List.length_zipWith]

lemma addNoiseV_get (r : List ℚ) (ν : Nat → ℚ) (j : Nat)
    (hj : j < r.length) (hj2 : j < (addNoiseV r ν).length) :
    (addNoiseV r ν).get ⟨j, hj2⟩ = r.get ⟨j, hj⟩ + ν j := by
  simp [addNoiseV, List.get_eq_getElem, List.getElem_zipWith,
    List.getElem_range]

lemma length_addNoiseM (W : List (List ℚ)) (ν : Nat → Nat → ℚ) :
    (addNoiseM W ν).length = W.length := by
  simp [addNoiseM, List.length_zipWith]

lemma addNoiseM_get (W : List (List ℚ)) (ν : Nat → Nat → ℚ) (i : Nat)
    (hi : i < W.length) (hi2 : i < (addNoiseM W ν).length) :
    (addNoiseM W ν).get ⟨i, hi2⟩ = addNoiseV (W.get ⟨i, hi⟩) (ν i) := by
  simp [addNoiseM, List.get_eq_getElem, List.getElem_zipWith,
    List.getElem_range]

lemma get_of_list_eq {A B : List (List ℚ)} (h : A = B) (i : Nat)
    (hA : i < A.length) (hB : i < B.length) :
    A.get ⟨i, hA⟩ = B.get ⟨i, hB⟩ := by
  subst h; rfl

lemma getQ_of_list_eq {A B : List ℚ} (h : A = B) (i : Nat)
    (hA : i < A.length) (hB : i < B.length) :
    A.get ⟨i, hA⟩ = B.get ⟨i, hB⟩ := by
  subst h; rfl

lemma addNoiseM_entry (W : List (List ℚ)) (ν : Nat → Nat → ℚ) (i j : Nat)
    (hi : i < W.length) (hj : j < (W.get ⟨i, hi⟩).length)
    (hi2 : i < (addNoiseM W ν).length)
    (hj2 : j < ((addNoiseM W ν).get ⟨i, hi2⟩).length) :
    ((addNoiseM W ν).get ⟨i, hi2⟩).get ⟨j, hj2⟩ =
      (W.get ⟨i, hi⟩).get ⟨j, hj⟩ + ν i j := by
  have hrow := addNoiseM_get W ν i hi hi2
  have hj3 : j < (addNoiseV (W.get ⟨i, hi⟩) (ν i)).length := by
    rw [length_addNoiseV]; exact hj
  calc ((addNoiseM W ν).get ⟨i, hi2⟩).get ⟨j, hj2⟩
      = (addNoiseV (W.get ⟨i, hi⟩) (ν i)).get ⟨j, hj3⟩ :=
        getQ_of_list_eq hrow j hj2 hj3
    _ = (W.get ⟨i, hi⟩).get ⟨j, hj⟩ + ν i j :=
        addNoiseV_get (W.get ⟨i, hi⟩) (ν i) j hj hj3

lemma addNoiseM_rows (W : List (List ℚ)) (ν : Nat → Nat → ℚ) (n : Nat)
    (h : ∀ r ∈ W, r.length = n) :
    ∀ r ∈ addNoiseM W ν, r.length = n := by
  intro r hr
  obtain ⟨⟨i, hi⟩, rfl⟩ := List.mem_iff_get.mp hr
  have hi2 : i < W.length := by
    have := hi; rw [length_addNoiseM] at this; exact this
  rw [addNoiseM_get W ν i hi2 hi, length_addNoiseV]
  exact h _ (List.get_mem W i hi2)

lemma addNoiseM_ne_self (W : List (List ℚ)) (ν : Nat → Nat → ℚ) (i j : Nat)
    (hi : i < W.length) (hj : j < (W.get ⟨i, hi⟩).length)
    (hnz : ν i j ≠ 0) : addNoiseM W ν ≠ W := by
  intro h
  have hi2 : i < (addNoiseM W ν).length := by
    rw [length_addNoiseM]; exact hi
  have hrow := addNoiseM_get W ν i hi hi2
  have hj2 : j < ((addNoiseM W ν).get ⟨i, hi2⟩).length := by
    rw [hrow, length_addNoiseV]; exact hj
  have hentry := addNoiseM_entry W ν i j hi hj hi2 hj2
  have hsame : ((addNoiseM W ν).get ⟨i, hi2⟩).get ⟨j, hj2⟩ =
      (W.get ⟨i, hi⟩).get ⟨j, hj⟩ := by
    have h1 : (addNoiseM W ν).get ⟨i, hi2⟩ = W.get ⟨i, hi⟩ :=
      get_of_list_eq h i hi2 hi
    exact getQ_of_list_eq h1 j hj2 hj
  rw [hsame] at hentry
  exact hnz (by linarith)

lemma addNoiseM_addNoiseM_ne (W : List (List ℚ)) (ν1 ν2 : Nat → Nat → ℚ)
    (i j : Nat) (hi : i < W.length) (hj : j < (W.get ⟨i, hi⟩).length)
    (hnz : ν1 i j + ν2 i j ≠ 0) :
    addNoiseM (addNoiseM W ν1) ν2 ≠ W := by
  intro h
  have hiA : i < (addNoiseM W ν1).length := by
    rw [length_addNoiseM]; exact hi
  have hrowA := addNoiseM_get W ν1 i hi hiA
  have hjA : j < ((addNoiseM W ν1).get ⟨i, hiA⟩).length := by
    rw [hrowA, length_addNoiseV]; exact hj
  have hiB : i < (addNoiseM (addNoiseM W ν1) ν2).length := by
    rw [length_addNoiseM]; exact hiA
  have hjB : j < ((addNoiseM (addNoiseM W ν1) ν2).get ⟨i, hiB⟩).length := by
    rw [addNoiseM_get (addNoiseM W ν1) ν2 i hiA hiB, length_addNoiseV]
    exact hjA
  have h1 := addNoiseM_entry (addNoiseM W ν1) ν2 i j hiA hjA hiB hjB
  have h2 := addNoiseM_entry W ν1 i j hi hj hiA hjA
  have hsame : ((addNoiseM (addNoiseM W ν1) ν2).get ⟨i, hiB⟩).get ⟨j, hjB⟩ =
      (W.get ⟨i, hi⟩).get ⟨j, hj⟩ := by
    have hr : (addNoiseM (addNoiseM W ν1) ν2).get ⟨i, hiB⟩ = W.get ⟨i, hi⟩ :=
      get_of_list_eq h i hiB hi
    exact getQ_of_list_eq hr j hjB hj
  rw [hsame, h2] at h1
  exact hnz (by linarith)

lemma checkShape_spec (l : AnalogLinear) (W : List (List ℚ)) (B : List ℚ)
    (h : checkShape l W B = true) :
    W.length = l.out_features ∧ (∀ r ∈ W, r.length = l.in_features) ∧
      B.length = (if l.hasBias then l.out_features else 0) := by
  simp only [checkShape, Bool.and_eq_true, beq_iff_eq, List.all_eq_true,
    decide_eq_true_eq] at h
  exact ⟨h.1.1, h.1.2, h.2⟩

lemma set_weights_ok (l : AnalogLinear) (W : List (List ℚ)) (B : List ℚ)
    (ν : NoiseDraw) (h : checkShape l W B = true) :
    set_weights l W B ν = Except.ok { l with
      analog_tile := { l.analog_tile with
        weights := (committedPair l W B ν).1,
        bias := (committedPair l W B ν).2 },
      weight := (committedPair l W B ν).1,
      bias := (committedPair l W B ν).2 } := by
  simp [set_weights, h]

lemma committedPair_exact (l : AnalogLinear) (W : List (List ℚ))
    (B : List ℚ) (ν : NoiseDraw) (hreal : l.realistic_read_write = false)
    (hom : l.weight_scaling_omega = 0) :
    committedPair l W B ν = (W, B) := by
  simp [committedPair, hreal, hom, applyScaling]

lemma committedPair_realistic (l : AnalogLinear) (W : List (List ℚ))
    (B : List ℚ) (ν : NoiseDraw) (hreal : l.realistic_read_write = true)
    (hom : l.weight_scaling_omega = 0) :
    committedPair l W B ν = (addNoiseM W ν.w, addNoiseV B ν.b) := by
  simp [committedPair, hreal, hom, applyScaling]

lemma maxAbsV_cons (a : ℚ) (t : List ℚ) :
    maxAbsV (a :: t) = max |a| (maxAbsV t) := rfl

lemma maxAbs_cons (r : List ℚ) (t : List (List ℚ)) :
    maxAbs (r :: t) = max (maxAbsV r) (maxAbs t) := rfl

lemma maxAbsV_map_mul (r : List ℚ) (c : ℚ) (hc : 0 ≤ c) :
    maxAbsV (r.map (fun a => a * c)) = c * maxAbsV r := by
  induction r with
  | nil => simp [maxAbsV]
  | cons a t ih =>
    rw [List.map_cons, maxAbsV_cons, maxAbsV_cons, ih,
      mul_max_of_nonneg _ _ hc, abs_mul, abs_of_nonneg hc, mul_comm |a| c]

lemma maxAbs_map_mul (W : List (List ℚ)) (c : ℚ) (hc : 0 ≤ c) :
    maxAbs (W.map (List.map (fun a => a * c))) = c * maxAbs W := by
  induction W with
  | nil => simp [maxAbs]
  | cons r t ih =>
    rw [List.map_cons, maxAbs_cons, maxAbs_cons, ih, maxAbsV_map_mul r c hc,
      mul_max_of_nonneg _ _ hc]

lemma maxAbs_applyScaling (om : ℚ) (W : List (List ℚ)) (B : List ℚ)
    (hom : 0 < om) (hW : 0 < maxAbs W) :
    maxAbs (applyScaling om W B).1 = om := by
  rw [applyScaling, if_neg hom.ne']
  simp only
  rw [maxAbs_map_mul W _ (le_of_lt (div_pos hom hW)),
    div_mul_cancel₀ om hW.ne']

lemma length_applyScaling1 (om : ℚ) (W : List (List ℚ)) (B : List ℚ) :
    ((applyScaling om W B).1).length = W.length := by
  rw [applyScaling]; split <;> simp

lemma applyScaling1_rows (om : ℚ) (W : List (List ℚ)) (B : List ℚ) (n : Nat)
    (h : ∀ r ∈ W, r.length = n) :
    ∀ r ∈ (applyScaling om W B).1, r.length = n := by
  rw [applyScaling]; split
  · intro r hr; exact h r hr
  · intro r hr
    simp only [List.mem_map] at hr
    obtain ⟨s, hs, rfl⟩ := hr
    simp [h s hs]

/-- Concrete non-realistic demo layer: 2 inputs, 1 output, bias enabled,
RealisticFlag false, WeightScalingOmega 0. -/
def demoLayer : AnalogLinear :=
  { in_features := 2, out_features := 1, hasBias := true,
    realistic_read_write := false, weight_scaling_omega := 0,
    training := true,
    analog_tile := ⟨Backend.cpu, [[0, 0]], [0]⟩,
    weight := [[0, 0]], bias := [0] }

/-- Concrete realistic demo layer (RealisticFlag true). -/
def demoRealLayer : AnalogLinear :=
  { demoLayer with realistic_read_write := true }

/-- Concrete noise draw perturbing every entry by 1. -/
def oneNoise : NoiseDraw := ⟨fun _ _ => 1, fun _ => 1⟩

/-- Layer produced by a successful non-realistic write of [[1, 2]], [3] on
the demo layer. -/
def demoSyncLayer : AnalogLinear :=
  { demoLayer with
    analog_tile := ⟨Backend.cpu, [[1, 2]], [3]⟩,
    weight := [[1, 2]], bias := [3] }

/-- Claim C1: with RealisticFlag false and WeightScalingOmega 0, for every
weights and bias of valid shape, get_weights after set_weights returns
exactly the values that were written: the write/read path is a round-trip
identity (floating tolerance is modelled as exact rational equality). -/
theorem claim_C1_roundtrip (l : AnalogLinear) (W : List (List ℚ))
    (B : List ℚ) (ν ν2 : NoiseDraw)
    (hreal : l.realistic_read_write = false)
    (hom : l.weight_scaling_omega = 0) (hsh : checkShape l W B = true) :
    ∃ l2, set_weights l W B ν = Except.ok l2 ∧
      get_weights l2 ν2 = (W, B) := by
  refine ⟨_, set_weights_ok l W B ν hsh, ?_⟩
  simp [get_weights, committedPair_exact l W B ν hreal hom, hreal]

/-- Witness for C1 at a concrete layer and concrete weights. -/
theorem claim_C1_roundtrip_witness :
    ∃ l2, set_weights demoLayer [[1, 2]] [3] noNoise = Except.ok l2 ∧
      get_weights l2 noNoise = ([[1, 2]], [3]) :=
  claim_C1_roundtrip demoLayer [[1, 2]] [3] noNoise noNoise rfl rfl
    (by decide)

/-- Claim C4: set_weights with a weights array of wrong shape, or a bias
inconsistent with the layer's bias configuration, fails with ShapeError,
and the layer — in particular its TileStorage — is left unchanged: no
partial write. -/
theorem claim_C4_shape_error (l : AnalogLinear) (W : List (List ℚ))
    (B : List ℚ) (ν : NoiseDraw) (hsh : checkShape l W B = false) :
    set_weights l W B ν = Except.error ShapeError.mk ∧
      trySetWeights l W B ν = l := by
  constructor
  · simp [set_weights, hsh]
  · simp [trySetWeights, set_weights, hsh]

/-- Witness for C4: a weights row of length 1 on a 2-input layer. -/
theorem claim_C4_shape_error_witness :
    set_weights demoLayer [[1]] [3] noNoise = Except.error ShapeError.mk ∧
      trySetWeights demoLayer [[1]] [3] noNoise = demoLayer :=
  claim_C4_shape_error demoLayer [[1]] [3] noNoise (by decide)

/-- Claim C6: migrating a layer to backend B yields a TileStorage reporting
backend B (a CPU tile becomes the accelerator tile after the move),
migrating a backend to itself is a no-op that leaves the layer unchanged,
and migration changes only the backend identity: the layer is Ready before
iff Ready after. -/
theorem claim_C6_migration (l : AnalogLinear) (bk : Backend) :
    (migrate l bk).analog_tile.backend = bk ∧
      migrate l l.analog_tile.backend = l ∧
      (Ready l ↔ Ready (migrate l bk)) :=
  ⟨rfl, rfl, Iff.rfl⟩

/-- Claim C9: after the construction bookkeeping, the logical weight (and
bias when enabled) has been unregistered from the framework's parameter
bookkeeping and the analog tile is registered as the single managed
resource: the optimizer-visible parameter set is empty and the tile list
holds exactly the layer's tile. -/
theorem claim_C9_registration (hb : Bool) (t : TileState) :
    (constructRegistry hb t).params = [] ∧
      (constructRegistry hb t).tiles = [t] := by
  cases hb <;> exact ⟨rfl, rfl⟩

/-- Counterexample to C2: under RealisticFlag true, after a concrete
set_weights call the subsequent get_weights result is a fresh noisy read
and differs from the logical shadow field, so the claim that the logical
fields equal a subsequent get_weights result under either flag setting is
false (the repository's own realistic-weights test asserts this
divergence). -/
theorem claim_C2_counterexample :
    ¬ ((get_weights (trySetWeights demoRealLayer [[1, 2]] [3] oneNoise)
          oneNoise).1 =
        (trySetWeights demoRealLayer [[1, 2]] [3] oneNoise).weight) := by
  norm_num [get_weights, trySetWeights, set_weights, checkShape,
    committedPair, applyScaling, addNoiseM, addNoiseV, oneNoise,
    demoRealLayer, demoLayer, List.range_succ]

/-- Claim C2 (amended): after every successful set_weights call, under
either RealisticFlag setting, the logical shadow fields exactly equal the
tile's stored weights and biases (so the logical view is never left equal
to a raw input that was transformed or noised on commit); when
RealisticFlag is false they moreover equal a subsequent get_weights call's
result, while under RealisticFlag true that subsequent read is a fresh
noisy draw and need not coincide. -/
theorem claim_C2_sync (l : AnalogLinear) (W : List (List ℚ)) (B : List ℚ)
    (ν : NoiseDraw) (l2 : AnalogLinear)
    (hset : set_weights l W B ν = Except.ok l2) :
    l2.weight = l2.analog_tile.weights ∧ l2.bias = l2.analog_tile.bias ∧
      (l.realistic_read_write = false →
        ∀ ν2, get_weights l2 ν2 = (l2.weight, l2.bias)) := by
  cases hc : checkShape l W B with
  | false => simp [set_weights, hc] at hset
  | true =>
    rw [set_weights_ok l W B ν hc] at hset
    injection hset with h2
    subst h2
    refine ⟨rfl, rfl, fun hreal ν2 => ?_⟩
    simp [get_weights, hreal]

/-- Witness for the amended C2 at a concrete non-realistic write. -/
theorem claim_C2_sync_witness :
    demoSyncLayer.weight = demoSyncLayer.analog_tile.weights ∧
      demoSyncLayer.bias = demoSyncLayer.analog_tile.bias ∧
      (demoLayer.realistic_read_write = false →
        ∀ ν2, get_weights demoSyncLayer ν2 =
          (demoSyncLayer.weight, demoSyncLayer.bias)) :=
  claim_C2_sync demoLayer [[1, 2]] [3] noNoise demoSyncLayer rfl

/-- Layer produced by the realistic write of [[1, 2]], [3] on the realistic
demo layer with the all-ones write-noise draw. -/
def demoRealL2 : AnalogLinear :=
  { demoRealLayer with
    analog_tile := ⟨Backend.cpu, [[2, 3]], [4]⟩,
    weight := [[2, 3]], bias := [4] }

/-- Claim C3: under RealisticFlag true (with no weight scaling and a noise
model that is non-degenerate at some valid entry, i.e. the write and fresh
read perturbations there do not cancel), get_weights after set_weights
returns values that differ from the weights and bias that were written:
the noisy commit and read do not recover the input. -/
theorem claim_C3_divergence (l : AnalogLinear) (W : List (List ℚ))
    (B : List ℚ) (ν ν2 : NoiseDraw) (i j : Nat) (l2 : AnalogLinear)
    (hreal : l.realistic_read_write = true)
    (hom : l.weight_scaling_omega = 0) (hsh : checkShape l W B = true)
    (hi : i < l.out_features) (hj : j < l.in_features)
    (hnz : ν.w i j + ν2.w i j ≠ 0)
    (hset : set_weights l W B ν = Except.ok l2) :
    get_weights l2 ν2 ≠ (W, B) := by
  obtain ⟨hlen, hrows, hblen⟩ := checkShape_spec l W B hsh
  rw [set_weights_ok l W B ν hsh] at hset
  injection hset with h2
  subst h2
  have hiW : i < W.length := by rw [hlen]; exact hi
  have hjW : j < (W.get ⟨i, hiW⟩).length := by
    rw [hrows _ (List.get_mem W i hiW)]; exact hj
  have hne := addNoiseM_addNoiseM_ne W ν.w ν2.w i j hiW hjW hnz
  intro h
  simp only [get_weights, hreal,
    committedPair_realistic l W B ν hreal hom] at h
  exact hne (congrArg Prod.fst h)

/-- Witness for C3 at a concrete realistic write and read. -/
theorem claim_C3_divergence_witness :
    get_weights demoRealL2 oneNoise ≠ ([[1, 2]], [3]) :=
  claim_C3_divergence demoRealLayer [[1, 2]] [3] oneNoise oneNoise 0 0
    demoRealL2 rfl rfl (by decide) (by decide) (by decide)
    (by norm_num [oneNoise])
    (by norm_num [set_weights, checkShape, committedPair, applyScaling,
      addNoiseM, addNoiseV, oneNoise, demoRealLayer, demoLayer, demoRealL2,
      List.range_succ])

/-- Claim C10: under RealisticFlag true, every get_weights call draws
fresh read noise independent of the preceding commit: whenever that fresh
draw is nonzero at some valid entry, the get_weights result differs from
the tile values that were read back (exactly) into the logical fields at
set time — two reads of the same physical state are two distinct noisy
draws. -/
theorem claim_C10_fresh_read (l : AnalogLinear) (W : List (List ℚ))
    (B : List ℚ) (ν ν2 : NoiseDraw) (i j : Nat) (l2 : AnalogLinear)
    (hreal : l.realistic_read_write = true)
    (hsh : checkShape l W B = true)
    (hi : i < l.out_features) (hj : j < l.in_features)
    (hnz : ν2.w i j ≠ 0)
    (hset : set_weights l W B ν = Except.ok l2) :
    (get_weights l2 ν2).1 ≠ l2.weight := by
  obtain ⟨hlen, hrows, hblen⟩ := checkShape_spec l W B hsh
  rw [set_weights_ok l W B ν hsh] at hset
  injection hset with h2
  subst h2
  have hCdef : (committedPair l W B ν).1 =
      addNoiseM (applyScaling l.weight_scaling_omega W B).1 ν.w := by
    simp [committedPair, hreal]
  have hlenC :
      (addNoiseM (applyScaling l.weight_scaling_omega W B).1 ν.w).length =
        l.out_features := by
    rw [length_addNoiseM, length_applyScaling1, hlen]
  have hrowsC : ∀ r ∈ addNoiseM (applyScaling l.weight_scaling_omega W B).1
      ν.w, r.length = l.in_features :=
    addNoiseM_rows _ _ _
      (applyScaling1_rows l.weight_scaling_omega W B l.in_features hrows)
  have hiC : i <
      (addNoiseM (applyScaling l.weight_scaling_omega W B).1 ν.w).length := by
    rw [hlenC]; exact hi
  have hjC : j <
      ((addNoiseM (applyScaling l.weight_scaling_omega W B).1 ν.w).get
        ⟨i, hiC⟩).length := by
    rw [hrowsC _ (List.get_mem _ i hiC)]; exact hj
  have hne := addNoiseM_ne_self _ ν2.w i j hiC hjC hnz
  simp only [get_weights, hreal, hCdef]
  exact hne

/-- Witness for C10 at a concrete realistic write followed by a fresh
noisy read. -/
theorem claim_C10_fresh_read_witness :
    (get_weights demoRealL2 oneNoise).1 ≠ demoRealL2.weight :=
  claim_C10_fresh_read demoRealLayer [[1, 2]] [3] oneNoise oneNoise 0 0
    demoRealL2 rfl (by decide) (by decide) (by decide)
    (by norm_num [oneNoise])
    (by norm_num [set_weights, checkShape, committedPair, applyScaling,
      addNoiseM, addNoiseV, oneNoise, demoRealLayer, demoLayer, demoRealL2,
      List.range_succ])

theorem claim_C5_scaling (l : AnalogLinear) (W : List (List ℚ))
    (B : List ℚ) (ν : NoiseDraw) (l2 : AnalogLinear)
    (hreal : l.realistic_read_write = false)
    (hsh : checkShape l W B = true)
    (hset : set_weights l W B ν = Except.ok l2) :
    (0 < l.weight_scaling_omega → 0 < maxAbs W →
      maxAbs l2.analog_tile.weights = l.weight_scaling_omega) ∧
      (l.weight_scaling_omega = 0 → l2.analog_tile.weights = W) := by
  rw [set_weights_ok l W B ν hsh] at hset
  injection hset with h2
  subst h2
  constructor
  · intro hom hW
    show maxAbs (committedPair l W B ν).1 = l.weight_scaling_omega
    have hc : (committedPair l W B ν).1 =
        (applyScaling l.weight_scaling_omega W B).1 := by
      simp [committedPair, hreal]
    rw [hc, maxAbs_applyScaling _ W B hom hW]
  · intro hom
    show (committedPair l W B ν).1 = W
    simp [committedPair, hreal, hom, applyScaling]

def demoOmegaLayer : AnalogLinear :=
  { demoLayer with weight_scaling_omega := 4 }

def demoOmegaL2 : AnalogLinear :=
  { demoOmegaLayer with
    analog_tile := ⟨Backend.cpu, [[2, 4]], [6]⟩,
    weight := [[2, 4]], bias := [6] }

theorem claim_C5_scaling_witness :
    (0 < demoOmegaLayer.weight_scaling_omega → 0 < maxAbs [[1, 2]] →
      maxAbs demoOmegaL2.analog_tile.weights =
        demoOmegaLayer.weight_scaling_omega) ∧
      (demoOmegaLayer.weight_scaling_omega = 0 →
        demoOmegaL2.analog_tile.weights = [[1, 2]]) :=
  claim_C5_scaling demoOmegaLayer [[1, 2]] [3] noNoise demoOmegaL2 rfl
    (by decide)
    (by norm_num [set_weights, checkShape, committedPair, applyScaling,
      maxAbs, maxAbsV, max_def, demoOmegaLayer, demoLayer, demoOmegaL2])

theorem claim_C7_reset_path (l : AnalogLinear) (bk : Backend)
    (inF outF : Nat) (hb realistic : Bool) (om : ℚ)
    (initW : List (List ℚ)) (initB : List ℚ) (ν : NoiseDraw)
    (hsh : checkShape (blankLayer bk inF outF hb realistic om) initW initB
      = true) :
    reset_parameters l initW initB ν =
      set_weights { l with weight := initW, bias := initB } initW initB ν ∧
      mkAnalogLinear bk inF outF hb realistic om initW initB ν =
        reset_parameters (blankLayer bk inF outF hb realistic om) initW
          initB ν ∧
      ∃ l2, mkAnalogLinear bk inF outF hb realistic om initW initB ν =
          Except.ok l2 ∧
        l2.analog_tile = TileState.mk bk
          (committedPair (blankLayer bk inF outF hb realistic om)
            initW initB ν).1
          (committedPair (blankLayer bk inF outF hb realistic om)
            initW initB ν).2 ∧
        l2.weight = l2.analog_tile.weights := by
  refine ⟨rfl, rfl, ?_⟩
  have hsh2 : checkShape
      { (blankLayer bk inF outF hb realistic om) with
        weight := initW, bias := initB } initW initB = true := hsh
  rw [mkAnalogLinear, reset_parameters, set_weights_ok _ initW initB ν hsh2]
  exact ⟨_, rfl, rfl, rfl⟩

theorem claim_C7_reset_path_witness :
    reset_parameters demoLayer [[1, 2]] [3] noNoise =
      set_weights { demoLayer with weight := [[1, 2]], bias := [3] }
        [[1, 2]] [3] noNoise ∧
      mkAnalogLinear Backend.cpu 2 1 true false 0 [[1, 2]] [3] noNoise =
        reset_parameters (blankLayer Backend.cpu 2 1 true false 0)
          [[1, 2]] [3] noNoise ∧
      ∃ l2, mkAnalogLinear Backend.cpu 2 1 true false 0 [[1, 2]] [3]
          noNoise = Except.ok l2 ∧
        l2.analog_tile = TileState.mk Backend.cpu
          (committedPair (blankLayer Backend.cpu 2 1 true false 0)
            [[1, 2]] [3] noNoise).1
          (committedPair (blankLayer Backend.cpu 2 1 true false 0)
            [[1, 2]] [3] noNoise).2 ∧
        l2.weight = l2.analog_tile.weights :=
  claim_C7_reset_path demoLayer Backend.cpu 2 1 true false 0 [[1, 2]] [3]
    noNoise (by decide)

theorem claim_C8_forward (l : AnalogLinear) (W : List (List ℚ))
    (B : List ℚ) (x : List ℚ) (ν : NoiseDraw) (l2 : AnalogLinear)
    (hreal : l.realistic_read_write = false)
    (hom : l.weight_scaling_omega = 0)
    (hbias : l.hasBias = true) (hout : 0 < l.out_features)
    (hsh : checkShape l W B = true)
    (hset : set_weights l W B ν = Except.ok l2) :
    forward l2 x = tile_forward l2.analog_tile x (!l2.training) ∧
      forward l2 x = List.zipWith (fun a b => a + b) (matVec W x) B := by
  obtain ⟨hlen, hrows, hblen⟩ := checkShape_spec l W B hsh
  rw [set_weights_ok l W B ν hsh] at hset
  injection hset with h2
  subst h2
  refine ⟨rfl, ?_⟩
  have hcp := committedPair_exact l W B ν hreal hom
  rw [hbias] at hblen
  simp only [if_true] at hblen
  rw [forward, tile_forward]
  simp only [hcp]
  cases B with
  | nil =>
    exfalso
    rw [List.length_nil] at hblen
    omega
  | cons b bs => simp

theorem claim_C8_forward_witness :
    forward demoSyncLayer [10, 100] =
      tile_forward demoSyncLayer.analog_tile [10, 100]
        (!demoSyncLayer.training) ∧
      forward demoSyncLayer [10, 100] =
        List.zipWith (fun a b => a + b) (matVec [[1, 2]] [10, 100]) [3] :=
  claim_C8_forward demoLayer [[1, 2]] [3] [10, 100] noNoise demoSyncLayer
    rfl rfl rfl (by decide) (by decide) rfl
